import Mathlib

/-!
Verification of the boot-negotiation pipeline of the bare-metal infra
provider: the DHCP proxy classifier and offer construction
(internal/dhcp/proxy.go), the iPXE binary patcher (the ipxe package),
and the TFTP path sanitizer (internal/tftp/tftp_server.go).

Shallow embedding conventions:
* byte slices are `List Nat`;
* Go errors become `Except`/`Option` error values;
* calls into external libraries (insomniacslk/dhcp, Go net and
  path/filepath) are modelled from their documented behavior, as noted
  at each definition.
-/

/-- IANA architecture code INTEL x86PC (github.com/insomniacslk/dhcp/iana). -/
def iana.INTEL_X86PC : Nat := 0

/-- IANA architecture code DEC Alpha (unrecognized by the classifier). -/
def iana.DEC_ALPHA : Nat := 3

/-- IANA architecture code EFI IA32. -/
def iana.EFI_IA32 : Nat := 6

/-- IANA architecture code EFI byte code. -/
def iana.EFI_BC : Nat := 7

/-- IANA architecture code EFI x86-64. -/
def iana.EFI_X86_64 : Nat := 9

/-- IANA architecture code EFI ARM64. -/
def iana.EFI_ARM64 : Nat := 11

/-- IANA architecture code EFI x86 HTTP boot. -/
def iana.EFI_X86_HTTP : Nat := 15

/-- IANA architecture code EFI x86-64 HTTP boot. -/
def iana.EFI_X86_64_HTTP : Nat := 16

/-- IANA architecture code EFI ARM64 HTTP boot. -/
def iana.EFI_ARM64_HTTP : Nat := 19

/-- Firmware is `type Firmware int` in proxy.go; the named constants follow
the `iota` order there: Unsupported, X86PC, X86EFI, ARMEFI, X86Ipxe,
X86HTTP, ARMHTTP.  Keeping the integer carrier preserves the semantics of
the Go `switch` default branch for out-of-range values. -/
abbrev Firmware := Nat

/-- Go constant `FirmwareUnsupported` (iota value 0). -/
def FirmwareUnsupported : Firmware := 0

/-- Go constant `FirmwareX86PC` (iota value 1). -/
def FirmwareX86PC : Firmware := 1

/-- Go constant `FirmwareX86EFI` (iota value 2). -/
def FirmwareX86EFI : Firmware := 2

/-- Go constant `FirmwareARMEFI` (iota value 3). -/
def FirmwareARMEFI : Firmware := 3

/-- Go constant `FirmwareX86Ipxe` (iota value 4). -/
def FirmwareX86Ipxe : Firmware := 4

/-- Go constant `FirmwareX86HTTP` (iota value 5). -/
def FirmwareX86HTTP : Firmware := 5

/-- Go constant `FirmwareARMHTTP` (iota value 6). -/
def FirmwareARMHTTP : Firmware := 6

/-- The errors `validateDHCP` can return. -/
inductive DHCPError where
  | unsupportedArch (arches : List Nat)
  | malformedGUIDLeadingByte
  | malformedGUIDWrongSize
deriving DecidableEq

/-- Whether a `DHCPError` is one of the two malformed client GUID
(option 97) errors. -/
def isGUIDError : DHCPError → Bool
  | .unsupportedArch _ => false
  | .malformedGUIDLeadingByte => true
  | .malformedGUIDWrongSize => true

/-- A DHCPv4 discover packet as the proxy reads it: message type
(option 53 value; Discover is 1), the parsed client architecture list
(option 93; `none` when the raw option is absent), user classes
(option 77), the client machine identifier GUID bytes (option 97) and
the vendor class identifier (option 60).  `none` models an absent
option. -/
structure DHCPPacket where
  messageType : Nat
  clientArch : Option (List Nat)
  userClasses : List String
  clientMachineIdentifier : Option (List Nat)
  classIdentifier : Option String
deriving DecidableEq

/-- dhcpv4.MessageTypeDiscover. -/
def MessageTypeDiscover : Nat := 1

/-- One step of the `switch arch` statement in the `for _, arch := range
arches` loop of `validateDHCP` (proxy.go): a recognized code overwrites
the provisional firmware type, an unrecognized code leaves it
unchanged. -/
def archToFirmware (fwtype : Firmware) (arch : Nat) : Firmware :=
  if arch = iana.INTEL_X86PC then FirmwareX86PC
  else if arch = iana.EFI_IA32 ∨ arch = iana.EFI_X86_64 ∨ arch = iana.EFI_BC then FirmwareX86EFI
  else if arch = iana.EFI_ARM64 then FirmwareARMEFI
  else if arch = iana.EFI_X86_HTTP ∨ arch = iana.EFI_X86_64_HTTP then FirmwareX86HTTP
  else if arch = iana.EFI_ARM64_HTTP then FirmwareARMHTTP
  else fwtype

/-- `validateDHCP` from proxy.go.  `arches` is `m.ClientArch()`,
`userClasses` is `m.UserClass()` and `guid` is
`m.GetOneOption(OptionClientMachineIdentifier)` (the nil slice of an
absent option is the empty list).  It folds the architecture switch over
the list starting from `FirmwareUnsupported`, rejects when nothing
matched, applies the iPXE user class refinement, and finally validates
the GUID length/leading byte. -/
def validateDHCP (arches : List Nat) (userClasses : List String) (guid : List Nat) :
    Except DHCPError Firmware :=
  let fwtype := arches.foldl archToFirmware FirmwareUnsupported
  if fwtype = FirmwareUnsupported then
    .error (.unsupportedArch arches)
  else
    let fwtype :=
      match userClasses with
      | uc :: _ => if uc = ("iPXE") ∧ fwtype = FirmwareX86PC then FirmwareX86Ipxe else fwtype
      | [] => fwtype
    if guid.length = 0 then .ok fwtype
    else if guid.length = 17 then
      if guid.head?.getD 0 ≠ 0 then .error (.malformedGUIDLeadingByte) else .ok fwtype
    else .error (.malformedGUIDWrongSize)

/-- The error `offerDHCP` can return (unsupported firmware type). -/
inductive OfferError where
  | unsupportedFirmware (fw : Firmware)
deriving DecidableEq

/-- The reply built by `offerDHCP`: the server IP set via
`dhcpv4.WithServerIP`, plus the DHCP options the function touches.
`none` models an option that is absent from the reply. -/
structure BootReply where
  serverIP : String
  clientIdentifier : Option (List Nat)
  classIdentifier : Option String
  tftpServerName : Option String
  bootFileName : Option String
deriving DecidableEq

/-- Go net.JoinHostPort: brackets the host when it contains a colon
(IPv6 literal), then appends a colon and the port. -/
def joinHostPort (host port : String) : String :=
  if host.contains ':' then ("[") ++ host ++ ("]:") ++ port else host ++ (":") ++ port

/-- `offerDHCP` from proxy.go.  `serverIP` stands for the string form of
`net.ParseIP(apiHost)`.  `dhcpv4.NewReplyFromRequest` with
`WithServerIP` and `WithOptionCopied` is modelled as a fresh reply whose
client identifier and class identifier are copied from the request when
present; then the `PXEClient` default and the firmware `switch` are
applied exactly as in the source. -/
def offerDHCP (req : DHCPPacket) (serverIP : String) (apiPort : Nat) (fwtype : Firmware) :
    Except OfferError BootReply :=
  let ipPort := joinHostPort serverIP (toString apiPort)
  let resp : BootReply :=
    { serverIP := serverIP
      clientIdentifier := req.clientMachineIdentifier
      classIdentifier := req.classIdentifier
      tftpServerName := none
      bootFileName := none }
  let resp :=
    if resp.classIdentifier = none then { resp with classIdentifier := some ("PXEClient") } else resp
  if fwtype = FirmwareX86PC then
    .ok { resp with tftpServerName := some serverIP, bootFileName := some ("undionly.kpxe") }
  else if fwtype = FirmwareX86Ipxe then
    .ok { resp with bootFileName := some (("tftp://") ++ serverIP ++ ("/undionly.kpxe")) }
  else if fwtype = FirmwareX86EFI then
    .ok { resp with tftpServerName := some serverIP, bootFileName := some ("snp.efi") }
  else if fwtype = FirmwareARMEFI then
    .ok { resp with tftpServerName := some serverIP, bootFileName := some ("snp-arm64.efi") }
  else if fwtype = FirmwareX86HTTP then
    .ok { resp with bootFileName := some (("http://") ++ ipPort ++ ("/tftp/snp.efi")) }
  else if fwtype = FirmwareARMHTTP then
    .ok { resp with bootFileName := some (("http://") ++ ipPort ++ ("/tftp/snp-arm64.efi")) }
  else
    .error (.unsupportedFirmware fwtype)

/-- `isBootDHCP` from proxy.go: a packet is a PXE boot request when its
message type is Discover and the raw client architecture option
(Options[93]) is present.  The two error returns of the source both map
to `false`. -/
def isBootDHCP (p : DHCPPacket) : Bool :=
  p.messageType == MessageTypeDiscover && p.clientArch.isSome

/-- The per-packet handler from proxy.go (`handlePacket`): returns the
reply written to the peer, or `none` when the packet is dropped (not a
boot request, classification failed, or offer construction failed). -/
def handlePacket (p : DHCPPacket) (serverIP : String) (apiPort : Nat) : Option BootReply :=
  if isBootDHCP p = false then none
  else
    match validateDHCP (p.clientArch.getD []) p.userClasses (p.clientMachineIdentifier.getD []) with
    | .error _ => none
    | .ok fw =>
      match offerDHCP p serverIP apiPort fw with
      | .error _ => none
      | .ok resp => some resp

/-- Specification-side mapping table of claim C1: the firmware variant a
single recognized architecture code maps to, `none` for unrecognized
codes. -/
def archFirmware (arch : Nat) : Option Firmware :=
  if arch = iana.INTEL_X86PC then some FirmwareX86PC
  else if arch = iana.EFI_IA32 ∨ arch = iana.EFI_X86_64 ∨ arch = iana.EFI_BC then some FirmwareX86EFI
  else if arch = iana.EFI_ARM64 then some FirmwareARMEFI
  else if arch = iana.EFI_X86_HTTP ∨ arch = iana.EFI_X86_64_HTTP then some FirmwareX86HTTP
  else if arch = iana.EFI_ARM64_HTTP then some FirmwareARMHTTP
  else none

/-- Whether an architecture code is in the mapping table. -/
def isRecognizedArch (a : Nat) : Bool := (archFirmware a).isSome

/-- The last recognized code of an architecture list, in iteration
order. -/
def lastRecognized (arches : List Nat) : Option Nat := (arches.filter isRecognizedArch).getLast?

/-- The table value of a recognized code (with an irrelevant default). -/
def archFirmwareD (a : Nat) : Firmware := (archFirmware a).getD FirmwareUnsupported

/-- Specification-side iPXE refinement of claim C1: reclassify X86PC to
X86Ipxe exactly when the first user class string is iPXE. -/
def ipxeOverride (ucs : List String) (fw : Firmware) : Firmware :=
  match ucs with
  | uc :: _ => if uc = ("iPXE") ∧ fw = FirmwareX86PC then FirmwareX86Ipxe else fw
  | [] => fw

/-- GUID well-formedness per the spec: length 0, or length 17 with a
zero leading byte. -/
def guidWellFormed (guid : List Nat) : Bool :=
  guid.length == 0 || (guid.length == 17 && guid.head?.getD 0 == 0)

theorem archToFirmware_eq_getD (fw : Firmware) (a : Nat) :
    archToFirmware fw a = (archFirmware a).getD fw := by
  unfold archToFirmware archFirmware
  split_ifs <;> rfl

theorem archFirmware_ne_unsupported {a : Nat} {v : Firmware}
    (h : archFirmware a = some v) : v ≠ FirmwareUnsupported := by
  unfold archFirmware at h
  split_ifs at h <;>
    (intro hv
     rw [hv] at h
     revert h
     decide)

theorem foldl_archToFirmware (init : Firmware) (arches : List Nat) :
    arches.foldl archToFirmware init =
      match lastRecognized arches with
      | some a => archFirmwareD a
      | none => init := by
  induction arches using List.reverseRecOn generalizing init with
  | nil => simp [lastRecognized]
  | append_singleton l a ih =>
    rw [List.foldl_append]
    simp only [List.foldl_cons, List.foldl_nil]
    rw [archToFirmware_eq_getD]
    unfold lastRecognized at ih ⊢
    rw [List.filter_append]
    by_cases hrec : isRecognizedArch a = true
    · have hfa : List.filter isRecognizedArch [a] = [a] := by simp [hrec]
      rw [hfa, List.getLast?_concat]
      have hsome : ∃ v, archFirmware a = some v := by
        unfold isRecognizedArch at hrec
        exact Option.isSome_iff_exists.mp hrec
      obtain ⟨v, hv⟩ := hsome
      simp [archFirmwareD, hv]
    · have hfa : List.filter isRecognizedArch [a] = [] := by simp [hrec]
      have hnone : archFirmware a = none := by
        unfold isRecognizedArch at hrec
        cases hopt : archFirmware a with
        | none => rfl
        | some v => rw [hopt] at hrec; simp at hrec
      rw [hfa, List.append_nil, hnone]
      simp only [Option.getD_none]
      exact ih init

theorem lastRecognized_isRecognized {arches : List Nat} {a : Nat}
    (h : lastRecognized arches = some a) : isRecognizedArch a = true := by
  unfold lastRecognized at h
  obtain ⟨l', hl'⟩ := List.getLast?_eq_some_iff.mp h
  have hmem : a ∈ arches.filter isRecognizedArch := by
    rw [hl']
    exact List.mem_concat_self l' a
  exact (List.mem_filter.mp hmem).2

theorem validateDHCP_eq (arches : List Nat) (ucs : List String) (guid : List Nat) :
    validateDHCP arches ucs guid =
      match lastRecognized arches with
      | none => .error (.unsupportedArch arches)
      | some a =>
        if guid.length = 0 then .ok (ipxeOverride ucs (archFirmwareD a))
        else if guid.length = 17 then
          if guid.head?.getD 0 ≠ 0 then .error (.malformedGUIDLeadingByte)
          else .ok (ipxeOverride ucs (archFirmwareD a))
        else .error (.malformedGUIDWrongSize) := by
  unfold validateDHCP
  rw [foldl_archToFirmware]
  cases hlr : lastRecognized arches with
  | none => rfl
  | some a =>
    have hne : archFirmwareD a ≠ FirmwareUnsupported := by
      have hrec := lastRecognized_isRecognized hlr
      unfold isRecognizedArch at hrec
      obtain ⟨v, hv⟩ := Option.isSome_iff_exists.mp hrec
      unfold archFirmwareD
      rw [hv]
      exact archFirmware_ne_unsupported hv
    simp only []
    rw [if_neg hne]
    rfl

/-- A concrete discover packet used by witnesses and counterexamples. -/
def samplePacket : DHCPPacket :=
  { messageType := MessageTypeDiscover
    clientArch := some [iana.INTEL_X86PC]
    userClasses := []
    clientMachineIdentifier := none
    classIdentifier := none }

/-- Claim C1 counterexample: a discover packet whose architecture list
holds the recognized code INTEL x86PC but whose GUID has the invalid
length 1 is rejected by `validateDHCP`, so classification does not
succeed for every packet with a recognized code. -/
theorem validateDHCP_bad_guid_blocks :
    validateDHCP [iana.INTEL_X86PC] [] [1] = Except.error (DHCPError.malformedGUIDWrongSize) ∧
    validateDHCP [iana.INTEL_X86PC] [] [1] ≠ Except.ok FirmwareX86PC := by
  have h : validateDHCP [iana.INTEL_X86PC] [] [1] =
      Except.error (DHCPError.malformedGUIDWrongSize) := rfl
  refine ⟨h, ?_⟩
  rw [h]
  simp

/-- Claim C1 (amended: the stated classification additionally requires a
well-formed GUID option, since `validateDHCP` also validates the GUID):
whenever the GUID is well formed and the architecture list has at least
one recognized code, classification succeeds and returns the mapping
table applied to the last recognized code, with the iPXE user class
override applied afterward; with no recognized code it fails with the
unsupported-arch error listing the architectures. -/
theorem validateDHCP_last_recognized_wins (arches : List Nat) (ucs : List String)
    (guid : List Nat) :
    (∀ a, guidWellFormed guid = true → lastRecognized arches = some a →
        validateDHCP arches ucs guid = Except.ok (ipxeOverride ucs (archFirmwareD a))) ∧
    (lastRecognized arches = none →
        validateDHCP arches ucs guid = Except.error (DHCPError.unsupportedArch arches)) := by
  constructor
  · intro a hg hlr
    rw [validateDHCP_eq, hlr]
    simp only [guidWellFormed, Bool.or_eq_true, Bool.and_eq_true, beq_iff_eq] at hg
    rcases hg with h0 | ⟨h17, hhd⟩
    · simp [h0]
    · have h0 : ¬guid.length = 0 := by omega
      simp [h0, h17, hhd]
  · intro hlr
    rw [validateDHCP_eq, hlr]


/-- Witness for the amended claim C1 at a concrete input: EFI IA32
followed by INTEL x86PC classifies to X86PC (last recognized code wins),
then the iPXE user class reclassifies it to X86Ipxe. -/
theorem validateDHCP_last_recognized_wins_w :
    validateDHCP [iana.EFI_IA32, iana.INTEL_X86PC] [("iPXE")] [] =
      Except.ok FirmwareX86Ipxe := by
  have h := (validateDHCP_last_recognized_wins [iana.EFI_IA32, iana.INTEL_X86PC]
    [("iPXE")] []).1 iana.INTEL_X86PC (by decide) (by decide)
  exact h

/-- Claim C5 counterexample: for a packet whose GUID has invalid length 1
but whose architecture list has no recognized code, classification fails
with the unsupported-arch error, not with a malformed-GUID error: the
GUID check is not applied independently of the architecture result. -/
theorem validateDHCP_guid_check_not_independent :
    guidWellFormed [1] = false ∧
    validateDHCP [iana.DEC_ALPHA] [] [1] =
      Except.error (DHCPError.unsupportedArch [iana.DEC_ALPHA]) ∧
    isGUIDError (DHCPError.unsupportedArch [iana.DEC_ALPHA]) = false := by
  refine ⟨by decide, rfl, by decide⟩

/-- Claim C5 (amended: the malformed-GUID error is reported only when the
architecture check passes, because an unrecognized architecture list
returns early): a packet with a malformed GUID never classifies
successfully; when the architecture list has a recognized code, the
failure is specifically a malformed-GUID error; and a well-formed GUID
(length 0, or length 17 with zero first byte) never causes
classification to fail. -/
theorem validateDHCP_guid_validation (arches : List Nat) (ucs : List String)
    (guid : List Nat) :
    (guidWellFormed guid = false → ∀ fw, validateDHCP arches ucs guid ≠ Except.ok fw) ∧
    (guidWellFormed guid = false → ∀ a, lastRecognized arches = some a →
        ∃ e, validateDHCP arches ucs guid = Except.error e ∧ isGUIDError e = true) ∧
    (guidWellFormed guid = true → ∀ e, validateDHCP arches ucs guid = Except.error e →
        e = DHCPError.unsupportedArch arches) := by
  have hbad : guidWellFormed guid = false →
      guid.length ≠ 0 ∧ (guid.length = 17 → guid.head?.getD 0 ≠ 0) := by
    intro hg
    have hgP : ¬(guid.length = 0 ∨ (guid.length = 17 ∧ guid.head?.getD 0 = 0)) := by
      intro hcon
      have htrue : guidWellFormed guid = true := by
        simp only [guidWellFormed, Bool.or_eq_true, Bool.and_eq_true, beq_iff_eq]
        exact hcon
      rw [htrue] at hg
      simp at hg
    constructor
    · intro h
      exact hgP (Or.inl h)
    · intro h17 hhd
      exact hgP (Or.inr ⟨h17, hhd⟩)
  refine ⟨?_, ?_, ?_⟩
  · intro hg fw
    obtain ⟨h0, himp⟩ := hbad hg
    rw [validateDHCP_eq]
    cases hlr : lastRecognized arches with
    | none => simp
    | some a =>
      by_cases h17 : guid.length = 17
      · simp [h0, h17, himp h17]
      · simp [h0, h17]
  · intro hg a hlr
    obtain ⟨h0, himp⟩ := hbad hg
    rw [validateDHCP_eq, hlr]
    by_cases h17 : guid.length = 17
    · refine ⟨DHCPError.malformedGUIDLeadingByte, by simp [h0, h17, himp h17], by decide⟩
    · refine ⟨DHCPError.malformedGUIDWrongSize, by simp [h0, h17], by decide⟩
  · intro hg e
    rw [validateDHCP_eq]
    simp only [guidWellFormed, Bool.or_eq_true, Bool.and_eq_true, beq_iff_eq] at hg
    cases hlr : lastRecognized arches with
    | none =>
      intro h
      have h2 : DHCPError.unsupportedArch arches = e := by
        injection h
      exact h2.symm
    | some a =>
      rcases hg with h0 | ⟨h17, hhd⟩
      · simp [h0]
      · have h0 : ¬guid.length = 0 := by omega
        simp [h0, h17, hhd]

/-- Witness for the amended claim C5: a GUID of length one makes
classification of a packet with recognized code INTEL x86PC fail with a
malformed-GUID error. -/
theorem validateDHCP_guid_validation_w :
    ∃ e, validateDHCP [iana.INTEL_X86PC] [] [1] = Except.error e ∧ isGUIDError e = true := by
  exact (validateDHCP_guid_validation [iana.INTEL_X86PC] [] [1]).2.1 (by decide)
    iana.INTEL_X86PC (by decide)

/-- Claim C2: for every classified firmware variant, `offerDHCP` sets the
boot-filename option exactly per the table (bare filename for X86PC,
X86EFI and ARMEFI, tftp URL for X86Ipxe, http URL for X86HTTP and
ARMHTTP), and fails for `FirmwareUnsupported` or any other firmware
value. -/
theorem offerDHCP_bootfile_table (req : DHCPPacket) (ip : String) (port : Nat) :
    (∃ r, offerDHCP req ip port FirmwareX86PC = Except.ok r ∧
        r.bootFileName = some ("undionly.kpxe")) ∧
    (∃ r, offerDHCP req ip port FirmwareX86Ipxe = Except.ok r ∧
        r.bootFileName = some (("tftp://") ++ ip ++ ("/undionly.kpxe"))) ∧
    (∃ r, offerDHCP req ip port FirmwareX86EFI = Except.ok r ∧
        r.bootFileName = some ("snp.efi")) ∧
    (∃ r, offerDHCP req ip port FirmwareARMEFI = Except.ok r ∧
        r.bootFileName = some ("snp-arm64.efi")) ∧
    (∃ r, offerDHCP req ip port FirmwareX86HTTP = Except.ok r ∧
        r.bootFileName = some (("http://") ++ joinHostPort ip (toString port) ++ ("/tftp/snp.efi"))) ∧
    (∃ r, offerDHCP req ip port FirmwareARMHTTP = Except.ok r ∧
        r.bootFileName = some (("http://") ++ joinHostPort ip (toString port) ++ ("/tftp/snp-arm64.efi"))) ∧
    (∀ fw : Firmware, fw ≠ FirmwareX86PC → fw ≠ FirmwareX86Ipxe → fw ≠ FirmwareX86EFI →
        fw ≠ FirmwareARMEFI → fw ≠ FirmwareX86HTTP → fw ≠ FirmwareARMHTTP →
        offerDHCP req ip port fw = Except.error (OfferError.unsupportedFirmware fw)) := by
  refine ⟨⟨_, rfl, rfl⟩, ⟨_, rfl, rfl⟩, ⟨_, rfl, rfl⟩, ⟨_, rfl, rfl⟩,
    ⟨_, rfl, rfl⟩, ⟨_, rfl, rfl⟩, ?_⟩
  intro fw h1 h2 h3 h4 h5 h6
  simp only [offerDHCP]
  rw [if_neg h1, if_neg h2, if_neg h3, if_neg h4, if_neg h5, if_neg h6]

/-- Witness for claim C2: on a concrete packet, the unsupported firmware
value produces a construction error. -/
theorem offerDHCP_bootfile_table_w :
    offerDHCP samplePacket ("10.0.0.1") 50042 FirmwareUnsupported =
      Except.error (OfferError.unsupportedFirmware FirmwareUnsupported) := by
  exact (offerDHCP_bootfile_table samplePacket ("10.0.0.1") 50042).2.2.2.2.2.2
    FirmwareUnsupported (by decide) (by decide) (by decide) (by decide) (by decide) (by decide)

/-- Claim C6 counterexample: the reply `offerDHCP` constructs for the
successfully classified variant X86Ipxe carries a boot-filename option
but no TFTP-server-name option, so not every successful reply carries
both options. -/
theorem offerDHCP_ipxe_lacks_tftp_option :
    ∃ r, offerDHCP samplePacket ("10.0.0.1") 50042 FirmwareX86Ipxe = Except.ok r ∧
      r.tftpServerName = none ∧ r.bootFileName.isSome = true := by
  exact ⟨_, rfl, rfl, rfl⟩

/-- Claim C6 (amended: the TFTP-server-name option is present exactly for
the X86PC, X86EFI and ARMEFI variants; the X86Ipxe, X86HTTP and ARMHTTP
branches set only the boot filename): every constructed reply carries
the server IP and a boot-filename option, the TFTP-server-name option
is present iff the firmware is X86PC, X86EFI or ARMEFI, and vendor-class
and client-identifier are echoed when present in the request. -/
theorem offerDHCP_reply_options (req : DHCPPacket) (ip : String) (port : Nat)
    (fw : Firmware) (r : BootReply) (h : offerDHCP req ip port fw = Except.ok r) :
    r.serverIP = ip ∧
    r.bootFileName.isSome = true ∧
    (r.tftpServerName.isSome = true ↔
      fw = FirmwareX86PC ∨ fw = FirmwareX86EFI ∨ fw = FirmwareARMEFI) ∧
    (∀ v, req.classIdentifier = some v → r.classIdentifier = some v) ∧
    (∀ g, req.clientMachineIdentifier = some g → r.clientIdentifier = some g) := by
  rcases hc : req.classIdentifier with _ | v0 <;>
    simp only [offerDHCP, hc, eq_self_iff_true, if_true, reduceCtorEq, if_false] at h <;>
    split_ifs at h with h1 h2 h3 h4 h5 h6 <;>
    simp only [reduceCtorEq, Except.ok.injEq] at h <;>
    (subst h
     subst fw
     refine ⟨rfl, rfl, ?_, ?_, ?_⟩
     · simp <;> decide
     · intro v hv
       first
         | (injection hv with hv2
            subst hv2
            rfl)
         | injection hv
     · intro g hg
       exact hg)

/-- Witness for the amended claim C6: concrete X86EFI reply carries both
options and the default vendor class. -/
theorem offerDHCP_reply_options_w :
    (BootReply.mk ("10.0.0.1") none (some ("PXEClient")) (some ("10.0.0.1"))
        (some ("snp.efi"))).tftpServerName.isSome = true ↔
      FirmwareX86EFI = FirmwareX86PC ∨ FirmwareX86EFI = FirmwareX86EFI ∨
        FirmwareX86EFI = FirmwareARMEFI := by
  exact (offerDHCP_reply_options samplePacket ("10.0.0.1") 50042 FirmwareX86EFI
    (BootReply.mk ("10.0.0.1") none (some ("PXEClient")) (some ("10.0.0.1"))
      (some ("snp.efi"))) rfl).2.2.1

/-- Claim C9: `offerDHCP` copies the vendor-class option unchanged when
the request carries one and defaults it to the literal PXEClient when
absent; the client-identifier option equals the request one (copied when
present, absent otherwise); the reply always carries a vendor class. -/
theorem offerDHCP_vendor_class_default (req : DHCPPacket) (ip : String) (port : Nat)
    (fw : Firmware) (r : BootReply) (h : offerDHCP req ip port fw = Except.ok r) :
    (∀ v, req.classIdentifier = some v → r.classIdentifier = some v) ∧
    (req.classIdentifier = none → r.classIdentifier = some ("PXEClient")) ∧
    r.clientIdentifier = req.clientMachineIdentifier ∧
    r.classIdentifier.isSome = true := by
  rcases hc : req.classIdentifier with _ | v0 <;>
    simp only [offerDHCP, hc, eq_self_iff_true, if_true, reduceCtorEq, if_false] at h <;>
    split_ifs at h with h1 h2 h3 h4 h5 h6 <;>
    simp only [reduceCtorEq, Except.ok.injEq] at h <;>
    (subst h
     refine ⟨?_, ?_, rfl, rfl⟩
     · intro v hv
       first
         | (injection hv with hv2
            subst hv2
            rfl)
         | injection hv
     · intro hnone
       first
         | rfl
         | exact absurd hnone (by simp))

/-- Witness for claim C9: concrete ARMHTTP reply with an absent request
vendor class carries the PXEClient default. -/
theorem offerDHCP_vendor_class_default_w :
    (BootReply.mk ("10.0.0.1") none (some ("PXEClient")) none
      (some (("http://") ++ joinHostPort ("10.0.0.1") (toString 50042) ++
        ("/tftp/snp-arm64.efi")))).classIdentifier = some ("PXEClient") := by
  exact (offerDHCP_vendor_class_default samplePacket ("10.0.0.1") 50042 FirmwareARMHTTP
    (BootReply.mk ("10.0.0.1") none (some ("PXEClient")) none
      (some (("http://") ++ joinHostPort ("10.0.0.1") (toString 50042) ++
        ("/tftp/snp-arm64.efi")))) rfl).2.1 rfl

/-- Claim C8: the per-packet handler drops, without constructing or
sending any reply, every packet whose message type is not Discover or
which lacks the client-architecture option 93. -/
theorem handlePacket_silent_drop (p : DHCPPacket) (ip : String) (port : Nat)
    (h : p.messageType ≠ MessageTypeDiscover ∨ p.clientArch = none) :
    handlePacket p ip port = none := by
  unfold handlePacket
  have hb : isBootDHCP p = false := by
    unfold isBootDHCP
    rcases h with h | h
    · simp [h]
    · simp [h]
  rw [hb]
  simp

/-- Witness for claim C8: a concrete Request-typed packet (message type
3) is dropped. -/
theorem handlePacket_silent_drop_w :
    handlePacket (DHCPPacket.mk 3 (some [iana.INTEL_X86PC]) [] none none)
      ("10.0.0.1") 50042 = none := by
  exact handlePacket_silent_drop (DHCPPacket.mk 3 (some [iana.INTEL_X86PC]) [] none none)
    ("10.0.0.1") 50042 (Or.inl (by decide))

/-- ASCII byte values of a Go string literal. -/
def strBytes (s : String) : List Nat := s.toList.map Char.toNat

/-- The literal placeholder start marker bytes from the ipxe package. -/
def placeholderStart : List Nat := strBytes ("# *PLACEHOLDER START*")

/-- The literal placeholder end marker bytes from the ipxe package. -/
def placeholderEnd : List Nat := strBytes ("# *PLACEHOLDER END*")

/-- Go bytes.Index: the index of the first occurrence of `needle` in a
byte slice, `none` when absent (the source's -1). -/
def bytesIndex (needle : List Nat) : List Nat → Option Nat
  | [] => if needle.isPrefixOf [] then some 0 else none
  | b :: rest =>
    if needle.isPrefixOf (b :: rest) then some 0
    else (bytesIndex needle rest).map (· + 1)

/-- The errors `patchScript` can return. -/
inductive PatchError where
  | startNotFound
  | endNotFound
  | endBeforeStart
  | scriptTooLarge (scriptLen space : Nat)
deriving DecidableEq

/-- `patchScript` from the ipxe package, as a pure function from the
source image bytes and the script bytes to the destination image bytes:
find both markers, move the window end past the end marker, check the
script fits, pad it with newlines (byte 10) to the window length, and
overwrite the window.  The Go function reads the source first and
writes the destination file only on the success path, so an error value
models a run in which the destination is never created or truncated. -/
def patchScript (contents script : List Nat) : Except PatchError (List Nat) :=
  match bytesIndex placeholderStart contents with
  | none => .error (.startNotFound)
  | some start =>
    match bytesIndex placeholderEnd contents with
    | none => .error (.endNotFound)
    | some endIdx =>
      if endIdx < start then .error (.endBeforeStart)
      else
        let endPos := endIdx + placeholderEnd.length
        let space := endPos - start
        if script.length > space then .error (.scriptTooLarge script.length space)
        else
          let padded := script ++ List.replicate (space - script.length) 10
          .ok (contents.take start ++ padded ++ contents.drop endPos)

theorem bytesIndex_sound {needle : List Nat} {hay : List Nat} {i : Nat}
    (h : bytesIndex needle hay = some i) : needle <+: hay.drop i := by
  induction hay generalizing i with
  | nil =>
    simp only [bytesIndex] at h
    split_ifs at h with hp
    injection h with h0
    subst h0
    simpa using List.isPrefixOf_iff_prefix.mp hp
  | cons b rest ih =>
    simp only [bytesIndex] at h
    split_ifs at h with hp
    · injection h with h0
      subst h0
      simpa using List.isPrefixOf_iff_prefix.mp hp
    · rw [Option.map_eq_some'] at h
      obtain ⟨j, hj, hji⟩ := h
      subst hji
      simpa using ih hj

theorem bytesIndex_none_iff {needle hay : List Nat} :
    bytesIndex needle hay = none ↔ ∀ i, ¬ needle <+: hay.drop i := by
  induction hay with
  | nil =>
    constructor
    · intro h i hpre
      simp only [bytesIndex] at h
      split_ifs at h with hp
      rw [List.drop_nil] at hpre
      exact hp (List.isPrefixOf_iff_prefix.mpr hpre)
    · intro hall
      have hnc : ¬ needle.isPrefixOf ([] : List Nat) = true := by
        intro hp
        exact hall 0 (by simpa using List.isPrefixOf_iff_prefix.mp hp)
      simp [bytesIndex, hnc]
  | cons b rest ih =>
    constructor
    · intro h i hpre
      simp only [bytesIndex] at h
      split_ifs at h with hp
      rw [Option.map_eq_none'] at h
      cases i with
      | zero =>
        rw [List.drop_zero] at hpre
        exact hp (List.isPrefixOf_iff_prefix.mpr hpre)
      | succ j =>
        exact (ih.mp h) j (by simpa using hpre)
    · intro hall
      have hnc : ¬ needle.isPrefixOf (b :: rest) = true := by
        intro hp
        exact hall 0 (by simpa using List.isPrefixOf_iff_prefix.mp hp)
      simp only [bytesIndex, hnc, Bool.false_eq_true, if_false, Option.map_eq_none']
      rw [ih]
      intro j hpre
      exact hall (j + 1) (by simpa using hpre)

theorem bytesIndex_bound {needle hay : List Nat} {i : Nat} (hne : needle ≠ [])
    (h : bytesIndex needle hay = some i) : i + needle.length ≤ hay.length := by
  have hp := bytesIndex_sound h
  have hlen := hp.length_le
  rw [List.length_drop] at hlen
  have hpos : 0 < needle.length := List.length_pos.mpr hne
  omega

theorem patchScript_eq_ok {contents script : List Nat} {s k : Nat}
    (hs : bytesIndex placeholderStart contents = some s)
    (hk : bytesIndex placeholderEnd contents = some k)
    (hsk : s ≤ k)
    (hfit : script.length ≤ k + placeholderEnd.length - s) :
    patchScript contents script =
      .ok (contents.take s ++
        (script ++ List.replicate ((k + placeholderEnd.length - s) - script.length) 10) ++
        contents.drop (k + placeholderEnd.length)) := by
  simp only [patchScript, hs, hk]
  rw [if_neg (by omega), if_neg (by omega)]

theorem patchScript_spec {contents script : List Nat} {s k : Nat}
    (hs : bytesIndex placeholderStart contents = some s)
    (hk : bytesIndex placeholderEnd contents = some k)
    (hsk : s ≤ k)
    (hfit : script.length ≤ k + placeholderEnd.length - s) :
    (contents.take s ++
      (script ++ List.replicate ((k + placeholderEnd.length - s) - script.length) 10) ++
      contents.drop (k + placeholderEnd.length)).length = contents.length ∧
    (contents.take s ++
      (script ++ List.replicate ((k + placeholderEnd.length - s) - script.length) 10) ++
      contents.drop (k + placeholderEnd.length)).take s = contents.take s ∧
    (contents.take s ++
      (script ++ List.replicate ((k + placeholderEnd.length - s) - script.length) 10) ++
      contents.drop (k + placeholderEnd.length)).drop (k + placeholderEnd.length) =
      contents.drop (k + placeholderEnd.length) ∧
    ((contents.take s ++
      (script ++ List.replicate ((k + placeholderEnd.length - s) - script.length) 10) ++
      contents.drop (k + placeholderEnd.length)).drop s).take (k + placeholderEnd.length - s) =
      script ++ List.replicate ((k + placeholderEnd.length - s) - script.length) 10 := by
  have hke : k + placeholderEnd.length ≤ contents.length := bytesIndex_bound (by decide) hk
  have hse : s + placeholderStart.length ≤ contents.length := bytesIndex_bound (by decide) hs
  have hsplen : 0 < placeholderStart.length := by decide
  have hA : (contents.take s).length = s := by
    rw [List.length_take]
    omega
  have hP : (script ++ List.replicate ((k + placeholderEnd.length - s) - script.length) 10).length
      = k + placeholderEnd.length - s := by
    rw [List.length_append, List.length_replicate]
    omega
  have hAP : (contents.take s ++
      (script ++ List.replicate ((k + placeholderEnd.length - s) - script.length) 10)).length =
      k + placeholderEnd.length := by
    rw [List.length_append, hA, hP]
    omega
  refine ⟨?_, ?_, ?_, ?_⟩
  · rw [List.length_append, List.length_append, hA, hP, List.length_drop]
    omega
  · rw [List.append_assoc, List.take_left' hA]
  · rw [List.drop_left' hAP]
  · rw [List.append_assoc, List.drop_left' hA, List.take_left' hP]

/-- Claim C3: when the source image contains both placeholder markers
(the start marker's first occurrence no later than the end marker's) and
the script fits the marker-inclusive window, patching succeeds and the
destination equals the source outside the window, holds the script
followed by newline padding filling exactly the window inside it, and
preserves the total length. -/
theorem patchScript_frame (contents script : List Nat) (s k : Nat)
    (hs : bytesIndex placeholderStart contents = some s)
    (hk : bytesIndex placeholderEnd contents = some k)
    (hsk : s ≤ k)
    (hfit : script.length ≤ k + placeholderEnd.length - s) :
    ∃ out, patchScript contents script = Except.ok out ∧
      out.length = contents.length ∧
      out.take s = contents.take s ∧
      out.drop (k + placeholderEnd.length) = contents.drop (k + placeholderEnd.length) ∧
      (out.drop s).take (k + placeholderEnd.length - s) =
        script ++ List.replicate ((k + placeholderEnd.length - s) - script.length) 10 := by
  obtain ⟨h1, h2, h3, h4⟩ := patchScript_spec hs hk hsk hfit
  exact ⟨_, patchScript_eq_ok hs hk hsk hfit, h1, h2, h3, h4⟩

/-- Witness for claim C3: a fully concrete patch of a two-marker image
with a short script. -/
theorem patchScript_frame_w :
    ∃ out, patchScript (placeholderStart ++ placeholderEnd) (strBytes ("#!ipxe")) =
        Except.ok out ∧
      out.length = (placeholderStart ++ placeholderEnd).length ∧
      out.take 0 = (placeholderStart ++ placeholderEnd).take 0 ∧
      out.drop (21 + placeholderEnd.length) =
        (placeholderStart ++ placeholderEnd).drop (21 + placeholderEnd.length) ∧
      (out.drop 0).take (21 + placeholderEnd.length - 0) =
        strBytes ("#!ipxe") ++
          List.replicate ((21 + placeholderEnd.length - 0) - (strBytes ("#!ipxe")).length) 10 :=
  patchScript_frame (placeholderStart ++ placeholderEnd) (strBytes ("#!ipxe")) 0 21
    (by decide) (by decide) (by decide) (by decide)

/-- Claim C4: a script strictly larger than the placeholder window makes
`patchScript` fail with the script-too-large error before any output is
produced (the Go function writes the destination only on success, so
the destination file is not created, truncated or wrapped), while a
script whose length equals the window length is accepted. -/
theorem patchScript_oversize_rejected (contents script : List Nat) (s k : Nat)
    (hs : bytesIndex placeholderStart contents = some s)
    (hk : bytesIndex placeholderEnd contents = some k)
    (hsk : s ≤ k) :
    (k + placeholderEnd.length - s < script.length →
        patchScript contents script =
          Except.error (PatchError.scriptTooLarge script.length
            (k + placeholderEnd.length - s))) ∧
    (script.length = k + placeholderEnd.length - s →
        ∃ out, patchScript contents script = Except.ok out) := by
  constructor
  · intro hbig
    simp only [patchScript, hs, hk]
    rw [if_neg (by omega), if_pos (by omega)]
  · intro heq
    exact ⟨_, patchScript_eq_ok hs hk hsk (by omega)⟩

/-- Witness for claim C4: a 41-byte script is rejected by the 40-byte
window of a concrete two-marker image. -/
theorem patchScript_oversize_rejected_w :
    patchScript (placeholderStart ++ placeholderEnd) (List.replicate 41 65) =
      Except.error (PatchError.scriptTooLarge (List.replicate 41 65).length
        (21 + placeholderEnd.length - 0)) :=
  (patchScript_oversize_rejected (placeholderStart ++ placeholderEnd)
    (List.replicate 41 65) 0 21 (by decide) (by decide) (by decide)).1 (by decide)

theorem no_occurrence_in_padded {needle script : List Nat} {p : Nat}
    (hnl : (10 : Nat) ∉ needle)
    (h : bytesIndex needle script = none) :
    bytesIndex needle (script ++ List.replicate p 10) = none := by
  rw [bytesIndex_none_iff] at h ⊢
  intro i hpre
  rw [List.drop_append_eq_append_drop, List.drop_replicate] at hpre
  have hneedle_eq := List.prefix_iff_eq_take.mp hpre
  by_cases hlen : needle.length ≤ (script.drop i).length
  · have hpre2 : needle <+: script.drop i := by
      rw [List.take_append_of_le_length hlen] at hneedle_eq
      rw [hneedle_eq]
      exact List.take_prefix _ _
    exact h i hpre2
  · have hqeq : needle = script.drop i ++
        (List.replicate (p - (i - script.length)) 10).take
          (needle.length - (script.drop i).length) := by
      conv_lhs => rw [hneedle_eq]
      rw [List.take_append_eq_append_take,
        @List.take_of_length_le _ needle.length (script.drop i) (by omega)]
    rw [List.take_replicate] at hqeq
    have hlen2 := congrArg List.length hqeq
    simp only [List.length_append, List.length_replicate] at hlen2
    have hminpos : 0 < (needle.length - (script.drop i).length) ⊓
        (p - (i - script.length)) := by omega
    have h10 : (10 : Nat) ∈ needle := by
      rw [hqeq]
      refine List.mem_append_right _ ?_
      exact List.mem_replicate.mpr ⟨by omega, rfl⟩
    exact hnl h10

/-- Claim C10 counterexample: patching a source that contains a second
start marker after the window, with the empty script (which contains no
marker at all), produces a destination that still contains the start
marker: the patched image is not marker-free in general even when the
injected script is. -/
theorem patchScript_marker_can_survive :
    bytesIndex placeholderStart ([] : List Nat) = none ∧
    patchScript (placeholderStart ++ placeholderEnd ++ placeholderStart) [] =
      Except.ok (List.replicate 40 10 ++ placeholderStart) ∧
    (bytesIndex placeholderStart (List.replicate 40 10 ++ placeholderStart)).isSome = true := by
  refine ⟨by decide, by rfl, by decide⟩

/-- Claim C10 (amended: the window is marker-inclusive exactly as
claimed - its length is the end-marker index plus the end-marker length
minus the start-marker index, the script-size bound is checked against
this marker-inclusive length, and the whole window including both
marker occurrences is overwritten with the script and its newline
padding, which therefore contains no marker when the script does not -
but the destination as a whole may still contain markers, e.g. a second
occurrence after the window, so only the patched window itself is
guaranteed marker-free). -/
theorem patchScript_window_marker_inclusive (contents script : List Nat) (s k : Nat)
    (hs : bytesIndex placeholderStart contents = some s)
    (hk : bytesIndex placeholderEnd contents = some k)
    (hsk : s ≤ k)
    (hfit : script.length ≤ k + placeholderEnd.length - s) :
    (∀ big : List Nat, k + placeholderEnd.length - s < big.length →
        patchScript contents big =
          Except.error (PatchError.scriptTooLarge big.length
            (k + placeholderEnd.length - s))) ∧
    ∃ out, patchScript contents script = Except.ok out ∧
      (out.drop s).take (k + placeholderEnd.length - s) =
        script ++ List.replicate ((k + placeholderEnd.length - s) - script.length) 10 ∧
      (bytesIndex placeholderStart script = none →
        bytesIndex placeholderStart ((out.drop s).take (k + placeholderEnd.length - s)) = none) ∧
      (bytesIndex placeholderEnd script = none →
        bytesIndex placeholderEnd ((out.drop s).take (k + placeholderEnd.length - s)) = none) := by
  have hwin := (patchScript_spec hs hk hsk hfit).2.2.2
  constructor
  · intro big hbig
    simp only [patchScript, hs, hk]
    rw [if_neg (by omega), if_pos (by omega)]
  · refine ⟨_, patchScript_eq_ok hs hk hsk hfit, hwin, ?_, ?_⟩
    · intro hnone
      rw [hwin]
      exact no_occurrence_in_padded (by decide) hnone
    · intro hnone
      rw [hwin]
      exact no_occurrence_in_padded (by decide) hnone

/-- Witness for the amended claim C10 at a concrete two-marker image and
the empty script. -/
theorem patchScript_window_marker_inclusive_w :
    ∃ out, patchScript (placeholderStart ++ placeholderEnd) [] = Except.ok out ∧
      (out.drop 0).take (21 + placeholderEnd.length - 0) =
        [] ++ List.replicate ((21 + placeholderEnd.length - 0) - List.length ([] : List Nat)) 10 ∧
      (bytesIndex placeholderStart ([] : List Nat) = none →
        bytesIndex placeholderStart
          ((out.drop 0).take (21 + placeholderEnd.length - 0)) = none) ∧
      (bytesIndex placeholderEnd ([] : List Nat) = none →
        bytesIndex placeholderEnd
          ((out.drop 0).take (21 + placeholderEnd.length - 0)) = none) :=
  (patchScript_window_marker_inclusive (placeholderStart ++ placeholderEnd) [] 0 21
    (by decide) (by decide) (by decide) (by decide)).2

/-- Splits a character list into the chunks between path separators,
the segment decomposition Go path/filepath.Clean works on (unix
separator); the empty list yields one empty chunk. -/
def splitSlash : List Char → List (List Char)
  | [] => [[]]
  | c :: rest =>
    let r := splitSlash rest
    if c = '/' then [] :: r
    else (c :: r.headD []) :: r.tail

/-- Joins segments with the path separator (inverse of `splitSlash` on
separator-free segments). -/
def joinSlash : List (List Char) → List Char
  | [] => []
  | [s] => s
  | s :: s2 :: rest => s ++ '/' :: joinSlash (s2 :: rest)

/-- The two-dot path segment. -/
def dotdot : List Char := ['.', '.']

/-- The one-dot path segment, also the cleaned form of an empty path. -/
def dotSeg : List Char := ['.']

/-- Whether the cleaning keeps a segment at all (empty and one-dot
segments are always skipped). -/
def keepSeg (s : List Char) : Bool := !(s == [] || s == dotSeg)

/-- One step of the segment stack of Go path/filepath.Clean (the Plan 9
cleanname algorithm, which the Go buffer implementation realizes):
empty and dot segments are skipped; a two-dot segment pops a previous
real segment, is dropped at the root of a rooted path, and is kept for
an unrooted path; every other segment is pushed. -/
def cleanStack (rooted : Bool) (st : List (List Char)) (seg : List Char) : List (List Char) :=
  if seg = [] ∨ seg = dotSeg then st
  else if seg = dotdot then
    match st with
    | [] => if rooted then [] else [dotdot]
    | top :: rest => if top = dotdot then dotdot :: top :: rest else rest
  else seg :: st

/-- The cleaned segment list of a path. -/
def cleanSegs (rooted : Bool) (segs : List (List Char)) : List (List Char) :=
  (segs.foldl (cleanStack rooted) []).reverse

/-- Go filepath.IsAbs on unix: the path starts with the separator. -/
def isAbsL (p : List Char) : Bool :=
  match p with
  | c :: _ => c = '/'
  | [] => false

/-- Go filepath.Clean on unix, modelled from its documented semantics:
split into segments, process them against the stack, rejoin; an empty
cleaned result is `.` for an unrooted path and `/` for a rooted one,
and Clean of the empty string is `.`. -/
def pathCleanL (p : List Char) : List Char :=
  if p = [] then dotSeg
  else
    let rooted := isAbsL p
    let segs := cleanSegs rooted (splitSlash p)
    if rooted then '/' :: joinSlash segs
    else if segs = [] then dotSeg
    else joinSlash segs

/-- Go filepath.Rel from the root directory of a cleaned absolute path:
the root itself maps to `.`, any other cleaned absolute path loses its
leading separator. -/
def relFromRootL (p : List Char) : List Char :=
  if p = ['/'] then dotSeg else p.drop 1

/-- `cleanPath` from internal/tftp/tftp_server.go on character lists:
clean; if the result is not absolute, clean it again as rooted and take
the result relative to the root; clean once more. -/
def cleanPathL (p : List Char) : List Char :=
  if p = [] then []
  else
    let p1 := pathCleanL p
    let p2 := if isAbsL p1 then p1 else relFromRootL (pathCleanL ('/' :: p1))
    pathCleanL p2

/-- Go filepath.Join of two elements: empty elements are dropped, the
rest joined with the separator, and the result cleaned; joining two
empty strings gives the empty string. -/
def pathJoinL (a b : List Char) : List Char :=
  if a = [] then (if b = [] then [] else pathCleanL b)
  else if b = [] then pathCleanL a
  else pathCleanL (a ++ '/' :: b)

/-- `cleanPath` from internal/tftp/tftp_server.go as a string function. -/
def cleanPath (path : String) : String := String.mk (cleanPathL path.data)

/-- constants.TFTPPath, the TFTP serving root. -/
def TFTPPath : String := "/var/lib/tftp"

/-- The `filepath.Join(constants.TFTPPath, cleanPath(filename))` step of
`handleRead` in internal/tftp/tftp_server.go: the path that the TFTP
server opens for a requested filename. -/
def resolveTFTP (filename : String) : String :=
  String.mk (pathJoinL TFTPPath.data (cleanPathL filename.data))

theorem splitSlash_ne_nil (l : List Char) : splitSlash l ≠ [] := by
  cases l with
  | nil => simp [splitSlash]
  | cons c rest =>
    simp only [splitSlash]
    split_ifs <;> simp

theorem splitSlash_no_sep (l : List Char) : ∀ s ∈ splitSlash l, '/' ∉ s := by
  induction l with
  | nil =>
    intro s hs
    simp [splitSlash] at hs
    simp [hs]
  | cons c rest ih =>
    intro s hs
    simp only [splitSlash] at hs
    by_cases hc : c = '/'
    · rw [if_pos hc] at hs
      rcases List.mem_cons.mp hs with rfl | hs2
      · simp
      · exact ih s hs2
    · rw [if_neg hc] at hs
      rcases List.mem_cons.mp hs with rfl | hs2
      · intro hmem
        rcases List.mem_cons.mp hmem with heq | hmem2
        · exact hc heq.symm
        · cases hsp : splitSlash rest with
          | nil => exact absurd hsp (splitSlash_ne_nil rest)
          | cons s0 ss =>
            rw [hsp] at hmem2
            simp only [List.headD_cons] at hmem2
            exact ih s0 (hsp ▸ List.mem_cons_self s0 ss) hmem2
      · cases hsp : splitSlash rest with
        | nil => exact absurd hsp (splitSlash_ne_nil rest)
        | cons s0 ss =>
          rw [hsp] at hs2
          simp only [List.tail_cons] at hs2
          exact ih s (hsp ▸ List.mem_cons_of_mem s0 hs2)

theorem splitSlash_append (a b : List Char) :
    splitSlash (a ++ '/' :: b) = splitSlash a ++ splitSlash b := by
  induction a with
  | nil => simp [splitSlash]
  | cons c a2 ih =>
    show splitSlash (c :: (a2 ++ '/' :: b)) = splitSlash (c :: a2) ++ splitSlash b
    by_cases hc : c = '/'
    · simp only [splitSlash, if_pos hc, ih]
      rfl
    · simp only [splitSlash, if_neg hc, ih]
      cases hsp : splitSlash a2 with
      | nil => exact absurd hsp (splitSlash_ne_nil a2)
      | cons s0 ss => simp [hsp, ih]

theorem splitSlash_single (s : List Char) (h : '/' ∉ s) : splitSlash s = [s] := by
  induction s with
  | nil => rfl
  | cons c rest ih =>
    have hc : ¬c = '/' := by
      intro hh
      exact h (by rw [hh]; exact List.mem_cons_self _ _)
    simp only [splitSlash]
    rw [if_neg hc, ih (fun hm => h (List.mem_cons_of_mem _ hm))]
    simp

theorem joinSlash_split (segs : List (List Char)) (hne : segs ≠ [])
    (h : ∀ s ∈ segs, '/' ∉ s) : splitSlash (joinSlash segs) = segs := by
  induction segs with
  | nil => exact absurd rfl hne
  | cons s rest ih =>
    cases rest with
    | nil => exact splitSlash_single s (h s (List.mem_cons_self _ _))
    | cons s2 rest2 =>
      show splitSlash (s ++ '/' :: joinSlash (s2 :: rest2)) = _
      rw [splitSlash_append, splitSlash_single s (h s (List.mem_cons_self _ _))]
      rw [ih (by simp) (fun x hx => h x (List.mem_cons_of_mem _ hx))]
      rfl

theorem joinSlash_append (xs ys : List (List Char)) (hx : xs ≠ []) (hy : ys ≠ []) :
    joinSlash (xs ++ ys) = joinSlash xs ++ '/' :: joinSlash ys := by
  induction xs with
  | nil => exact absurd rfl hx
  | cons s rest ih =>
    cases rest with
    | nil =>
      cases ys with
      | nil => exact absurd rfl hy
      | cons y ys2 => rfl
    | cons s2 rest2 =>
      show joinSlash (s :: ((s2 :: rest2) ++ ys)) = _
      have h2 : (s2 :: rest2) ++ ys = s2 :: (rest2 ++ ys) := rfl
      rw [h2]
      show s ++ '/' :: joinSlash (s2 :: (rest2 ++ ys)) = _
      rw [← h2, ih (by simp)]
      simp [joinSlash]

/-- The shape invariant of cleaned segments: nonempty, not the dot
segment, separator-free, and (for rooted cleaning) not the two-dot
segment. -/
def cleanedSeg (rooted : Bool) (x : List Char) : Prop :=
  x ≠ [] ∧ x ≠ dotSeg ∧ '/' ∉ x ∧ (rooted = true → x ≠ dotdot)

theorem cleanStack_mem (rooted : Bool) (st : List (List Char)) (seg x : List Char)
    (hx : x ∈ cleanStack rooted st seg)
    (hst : ∀ y ∈ st, cleanedSeg rooted y)
    (hsep : '/' ∉ seg) : cleanedSeg rooted x := by
  unfold cleanStack at hx
  by_cases h1 : seg = [] ∨ seg = dotSeg
  · rw [if_pos h1] at hx
    exact hst x hx
  · rw [if_neg h1] at hx
    by_cases h2 : seg = dotdot
    · rw [if_pos h2] at hx
      cases st with
      | nil =>
        have hx2 : x ∈ (if rooted = true then ([] : List (List Char)) else [dotdot]) := hx
        cases rooted with
        | true => simp at hx2
        | false =>
          simp only [Bool.false_eq_true, if_false] at hx2
          rcases List.mem_cons.mp hx2 with rfl | hx3
          · refine ⟨by decide, by decide, by decide, ?_⟩
            intro hcon
            exact absurd hcon (by decide)
          · simp at hx3
      | cons top rest2 =>
        have hx2 : x ∈ (if top = dotdot then dotdot :: top :: rest2 else rest2) := hx
        by_cases htop : top = dotdot
        · rw [if_pos htop] at hx2
          rcases List.mem_cons.mp hx2 with rfl | hx3
          · refine ⟨by decide, by decide, by decide, ?_⟩
            intro hroot _
            exact ((hst top (List.mem_cons_self _ _)).2.2.2 hroot) htop
          · exact hst x hx3
        · rw [if_neg htop] at hx2
          exact hst x (List.mem_cons_of_mem _ hx2)
    · rw [if_neg h2] at hx
      rcases List.mem_cons.mp hx with rfl | hx2
      · push_neg at h1
        exact ⟨h1.1, h1.2, hsep, fun _ => h2⟩
      · exact hst x hx2

theorem cleanStack_foldl_good (rooted : Bool) (segs : List (List Char)) :
    ∀ st : List (List Char), (∀ x ∈ st, cleanedSeg rooted x) →
    (∀ x ∈ segs, '/' ∉ x) →
    ∀ x ∈ segs.foldl (cleanStack rooted) st, cleanedSeg rooted x := by
  induction segs with
  | nil =>
    intro st hst _ x hx
    exact hst x hx
  | cons s rest ih =>
    intro st hst hsegs
    rw [List.foldl_cons]
    apply ih
    · intro x hx
      exact cleanStack_mem rooted st s x hx hst (hsegs s (List.mem_cons_self _ _))
    · intro x hx
      exact hsegs x (List.mem_cons_of_mem _ hx)

theorem foldl_cleanStack_push (rooted : Bool) (segs : List (List Char)) :
    ∀ st : List (List Char), (∀ x ∈ segs, x ≠ dotdot) →
    segs.foldl (cleanStack rooted) st = (segs.filter keepSeg).reverse ++ st := by
  induction segs with
  | nil => intro st _; simp
  | cons s rest ih =>
    intro st h
    rw [List.foldl_cons, List.filter_cons]
    by_cases hkeep : keepSeg s = true
    · have h1 : ¬(s = [] ∨ s = dotSeg) := by
        simpa [keepSeg, not_or] using hkeep
      have h2 : s ≠ dotdot := h s (List.mem_cons_self _ _)
      have hstep : cleanStack rooted st s = s :: st := by
        unfold cleanStack
        rw [if_neg h1, if_neg h2]
      rw [if_pos hkeep, hstep, ih _ (fun x hx => h x (List.mem_cons_of_mem _ hx))]
      simp
    · have h1 : s = [] ∨ s = dotSeg := by
        by_contra hcon
        push_neg at hcon
        apply hkeep
        simp [keepSeg, hcon.1, hcon.2]
      have hstep : cleanStack rooted st s = st := by
        unfold cleanStack
        rw [if_pos h1]
      rw [if_neg hkeep, hstep, ih _ (fun x hx => h x (List.mem_cons_of_mem _ hx))]

theorem cleanSegs_good (rooted : Bool) (p : List Char) :
    ∀ x ∈ cleanSegs rooted (splitSlash p), cleanedSeg rooted x := by
  intro x hx
  unfold cleanSegs at hx
  rw [List.mem_reverse] at hx
  exact cleanStack_foldl_good rooted (splitSlash p) [] (by simp) (splitSlash_no_sep p) x hx

theorem pathCleanL_rooted (p : List Char) (hp : isAbsL p = true) :
    ∃ segs, (∀ x ∈ segs, cleanedSeg true x) ∧
      pathCleanL p = '/' :: joinSlash segs := by
  have hpne : p ≠ [] := by
    intro hcon
    rw [hcon] at hp
    exact absurd hp (by decide)
  refine ⟨cleanSegs true (splitSlash p), ?_, ?_⟩
  · exact fun x hx => by
      have := cleanSegs_good (isAbsL p) p x (by rw [hp] at *; exact hx)
      rwa [hp] at this
  · unfold pathCleanL
    rw [if_neg hpne]
    simp only [hp, if_true]

theorem pathCleanL_unrooted (p : List Char) (hp : isAbsL p = false) (hpne : p ≠ []) :
    pathCleanL p = dotSeg ∨
      ∃ segs, segs ≠ [] ∧ (∀ x ∈ segs, cleanedSeg false x) ∧
        pathCleanL p = joinSlash segs := by
  by_cases hempty : cleanSegs false (splitSlash p) = []
  · left
    unfold pathCleanL
    rw [if_neg hpne]
    simp only [hp, Bool.false_eq_true, if_false, hempty, if_true]
  · right
    refine ⟨cleanSegs false (splitSlash p), hempty, ?_, ?_⟩
    · exact fun x hx => by
        have := cleanSegs_good (isAbsL p) p x (by rw [hp] at *; exact hx)
        rwa [hp] at this
    · unfold pathCleanL
      rw [if_neg hpne]
      simp only [hp, Bool.false_eq_true, if_false, hempty, if_true]

theorem joinSlash_good_shape (segs : List (List Char)) (hne : segs ≠ [])
    (hgood : ∀ x ∈ segs, x ≠ [] ∧ '/' ∉ x) :
    joinSlash segs ≠ [] ∧ isAbsL (joinSlash segs) = false := by
  cases segs with
  | nil => exact absurd rfl hne
  | cons s rest =>
    obtain ⟨hne0, hnsep⟩ := hgood s (List.mem_cons_self _ _)
    cases s with
    | nil => exact absurd rfl hne0
    | cons c cs =>
      have hc : ¬c = '/' := by
        intro hh
        exact hnsep (by rw [hh]; exact List.mem_cons_self _ _)
      cases rest with
      | nil => exact ⟨by simp [joinSlash], by simp [joinSlash, isAbsL, hc]⟩
      | cons s2 rest2 =>
        constructor
        · show (c :: cs) ++ '/' :: joinSlash (s2 :: rest2) ≠ []
          simp
        · show isAbsL ((c :: cs) ++ '/' :: joinSlash (s2 :: rest2)) = false
          simp [isAbsL, hc]

theorem pathCleanL_join_unrooted (segs : List (List Char)) (hne : segs ≠ [])
    (hgood : ∀ x ∈ segs, cleanedSeg true x) :
    pathCleanL (joinSlash segs) = joinSlash segs := by
  have hshape := joinSlash_good_shape segs hne
    (fun x hx => ⟨(hgood x hx).1, (hgood x hx).2.2.1⟩)
  have hsplit : splitSlash (joinSlash segs) = segs :=
    joinSlash_split segs hne (fun x hx => (hgood x hx).2.2.1)
  have hsegs : cleanSegs false segs = segs := by
    unfold cleanSegs
    rw [foldl_cleanStack_push false segs [] (fun x hx => (hgood x hx).2.2.2 rfl)]
    rw [List.append_nil, List.reverse_reverse]
    rw [List.filter_eq_self.mpr]
    intro x hx
    have hg := hgood x hx
    simp [keepSeg, hg.1, hg.2.1]
  unfold pathCleanL
  rw [if_neg hshape.1]
  simp only [hshape.2, Bool.false_eq_true, if_false, hsplit, hsegs]
  rw [if_neg hne]

theorem pathCleanL_join_rooted (segs : List (List Char))
    (hgood : ∀ x ∈ segs, cleanedSeg true x) :
    pathCleanL ('/' :: joinSlash segs) = '/' :: joinSlash segs := by
  cases hsegs : segs with
  | nil => decide
  | cons s0 rest0 =>
    rw [← hsegs]
    have hne : segs ≠ [] := by rw [hsegs]; simp
    have hsplit : splitSlash ('/' :: joinSlash segs) = [] :: segs := by
      show (let r := splitSlash (joinSlash segs);
        if ('/' : Char) = '/' then [] :: r else (('/' : Char) :: r.headD []) :: r.tail) = _
      rw [if_pos rfl, joinSlash_split segs hne (fun x hx => (hgood x hx).2.2.1)]
    have hclean : cleanSegs true ([] :: segs) = segs := by
      unfold cleanSegs
      rw [foldl_cleanStack_push true ([] :: segs) []]
      · rw [List.append_nil, List.reverse_reverse, List.filter_cons]
        have hkf : keepSeg [] = false := by decide
        rw [if_neg (by simp [hkf])]
        rw [List.filter_eq_self.mpr]
        intro x hx
        have hg := hgood x hx
        simp [keepSeg, hg.1, hg.2.1]
      · intro x hx
        rcases List.mem_cons.mp hx with rfl | hx2
        · decide
        · exact (hgood x hx2).2.2.2 rfl
    unfold pathCleanL
    rw [if_neg (by simp)]
    have habs : isAbsL ('/' :: joinSlash segs) = true := by simp [isAbsL]
    simp only [habs, if_true, hsplit, hclean]

theorem cleanPathL_struct (p : List Char) :
    cleanPathL p = [] ∨ cleanPathL p = dotSeg ∨ cleanPathL p = ['/'] ∨
      ∃ segs, segs ≠ [] ∧ (∀ x ∈ segs, cleanedSeg true x) ∧
        (cleanPathL p = joinSlash segs ∨ cleanPathL p = '/' :: joinSlash segs) := by
  by_cases hpe : p = []
  · left
    simp [cleanPathL, hpe]
  · have hstep : cleanPathL p =
        pathCleanL (if isAbsL (pathCleanL p) = true then pathCleanL p
          else relFromRootL (pathCleanL ('/' :: pathCleanL p))) := by
      unfold cleanPathL
      rw [if_neg hpe]
    by_cases habs : isAbsL (pathCleanL p) = true
    · rw [hstep, if_pos habs]
      have hpabs : isAbsL p = true := by
        by_contra hno
        have hno2 : isAbsL p = false := Bool.eq_false_iff.mpr hno
        rcases pathCleanL_unrooted p hno2 hpe with hx | ⟨segs, hne, hgood, hx⟩
        · rw [hx] at habs
          exact absurd habs (by decide)
        · rw [hx] at habs
          have hshape := joinSlash_good_shape segs hne
            (fun x hmem => ⟨(hgood x hmem).1, (hgood x hmem).2.2.1⟩)
          rw [hshape.2] at habs
          exact Bool.false_ne_true habs
      obtain ⟨segs, hgood, heq⟩ := pathCleanL_rooted p hpabs
      rw [heq, pathCleanL_join_rooted segs hgood]
      cases hsegs : segs with
      | nil =>
        right; right; left
        rfl
      | cons s0 r0 =>
        rw [hsegs] at hgood
        right; right; right
        exact ⟨s0 :: r0, by simp, hgood, Or.inr rfl⟩
    · rw [hstep, if_neg habs]
      obtain ⟨segs, hgood, heq⟩ := pathCleanL_rooted ('/' :: pathCleanL p) (by simp [isAbsL])
      rw [heq]
      cases hsegs : segs with
      | nil =>
        right; left
        decide
      | cons s0 r0 =>
        have hne : segs ≠ [] := by rw [hsegs]; simp
        rw [← hsegs]
        have hshape := joinSlash_good_shape segs hne
          (fun x hmem => ⟨(hgood x hmem).1, (hgood x hmem).2.2.1⟩)
        have hne2 : ('/' :: joinSlash segs) ≠ ['/'] := by
          intro hcon
          simp only [List.cons.injEq] at hcon
          exact hshape.1 hcon.2
        have hrel : relFromRootL ('/' :: joinSlash segs) = joinSlash segs := by
          unfold relFromRootL
          rw [if_neg hne2]
          rfl
        rw [hrel, pathCleanL_join_unrooted segs hne hgood]
        right; right; right
        exact ⟨segs, hne, hgood, Or.inl rfl⟩

theorem pathCleanL_root_concat (x : List Char) (xsegs : List (List Char))
    (hsplit : splitSlash x = xsegs)
    (hnodd : ∀ s ∈ xsegs, s ≠ dotdot) :
    pathCleanL (TFTPPath.data ++ '/' :: x) =
      if (xsegs.filter keepSeg) = [] then TFTPPath.data
      else TFTPPath.data ++ '/' :: joinSlash (xsegs.filter keepSeg) := by
  have hne : TFTPPath.data ++ '/' :: x ≠ [] := by simp
  have habs : isAbsL (TFTPPath.data ++ '/' :: x) = true := rfl
  have hsplitall : splitSlash (TFTPPath.data ++ '/' :: x) =
      splitSlash TFTPPath.data ++ xsegs := by
    rw [splitSlash_append, hsplit]
  have hfold : (splitSlash TFTPPath.data ++ xsegs).foldl (cleanStack true) [] =
      (xsegs.filter keepSeg).reverse ++
        (splitSlash TFTPPath.data).foldl (cleanStack true) [] := by
    rw [List.foldl_append]
    exact foldl_cleanStack_push true xsegs _ hnodd
  have hS0 : (splitSlash TFTPPath.data).foldl (cleanStack true) [] =
      [['t','f','t','p'], ['l','i','b'], ['v','a','r']] := by decide
  have hrev : ([['t','f','t','p'], ['l','i','b'], ['v','a','r']] :
      List (List Char)).reverse = [['v','a','r'], ['l','i','b'], ['t','f','t','p']] := by decide
  unfold pathCleanL
  rw [if_neg hne]
  simp only [habs, if_true]
  unfold cleanSegs
  rw [hsplitall, hfold, hS0, List.reverse_append, List.reverse_reverse, hrev]
  by_cases hf : xsegs.filter keepSeg = []
  · rw [hf, if_pos rfl, List.append_nil]
    decide
  · rw [if_neg hf, joinSlash_append _ _ (by simp) hf]
    rfl

/-- Claim C7 counterexample: for the absolute request name /etc/passwd
the lexical normalization `cleanPath` returns the path unchanged and in
particular absolute, not relative (the IsAbs branch of cleanPath skips
the relativization step). -/
theorem cleanPath_absolute_not_relative :
    cleanPath ("/etc/passwd") = ("/etc/passwd") ∧
    isAbsL (cleanPath ("/etc/passwd")).data = true := by
  exact ⟨rfl, rfl⟩

/-- Claim C7 (amended: `cleanPath` does not always yield a relative
path - an absolute request name stays absolute - yet the containment
still holds): for every requested filename, including empty, absolute
and dot-dot-laden names, the normalized name joined to the serving root
by the cleaning join resolves lexically inside the root directory:
the resolved path is the root itself or the root followed by a
separator and a suffix, never a path above the root. -/
theorem resolveTFTP_stays_in_root (f : String) :
    resolveTFTP f = TFTPPath ∨
      ∃ rest : List Char, (resolveTFTP f).data = TFTPPath.data ++ '/' :: rest := by
  unfold resolveTFTP
  rcases cleanPathL_struct f.data with h | h | h | ⟨segs, hne, hgood, h | h⟩
  · rw [h]
    left
    unfold pathJoinL
    rw [if_neg (by decide), if_pos rfl]
    have hroot : pathCleanL TFTPPath.data = TFTPPath.data := by decide
    rw [hroot]
  · rw [h]
    left
    unfold pathJoinL
    rw [if_neg (by decide), if_neg (by decide)]
    rw [pathCleanL_root_concat dotSeg [dotSeg] (by decide) (by decide)]
    rw [if_pos (by decide)]
  · rw [h]
    left
    unfold pathJoinL
    rw [if_neg (by decide), if_neg (by decide)]
    rw [pathCleanL_root_concat ['/'] [[], []] (by decide) (by decide)]
    rw [if_pos (by decide)]
  · rw [h]
    right
    have hshape := joinSlash_good_shape segs hne
      (fun x hx => ⟨(hgood x hx).1, (hgood x hx).2.2.1⟩)
    have hsplit : splitSlash (joinSlash segs) = segs :=
      joinSlash_split segs hne (fun x hx => (hgood x hx).2.2.1)
    have hfilter : segs.filter keepSeg = segs := by
      refine List.filter_eq_self.mpr (fun x hx => ?_)
      have hg := hgood x hx
      simp [keepSeg, hg.1, hg.2.1]
    unfold pathJoinL
    rw [if_neg (by decide), if_neg hshape.1]
    rw [pathCleanL_root_concat (joinSlash segs) segs hsplit
      (fun x hx => (hgood x hx).2.2.2 rfl)]
    rw [hfilter, if_neg hne]
    exact ⟨joinSlash segs, rfl⟩
  · rw [h]
    right
    have hsplit2 : splitSlash ('/' :: joinSlash segs) = [] :: segs := by
      show (let r := splitSlash (joinSlash segs);
        if ('/' : Char) = '/' then [] :: r else (('/' : Char) :: r.headD []) :: r.tail) = _
      rw [if_pos rfl, joinSlash_split segs hne (fun x hx => (hgood x hx).2.2.1)]
    have hfilter : ([] :: segs).filter keepSeg = segs := by
      rw [List.filter_cons, if_neg (by decide)]
      refine List.filter_eq_self.mpr (fun x hx => ?_)
      have hg := hgood x hx
      simp [keepSeg, hg.1, hg.2.1]
    have hnodd2 : ∀ x ∈ ([] :: segs), x ≠ dotdot := by
      intro x hx
      rcases List.mem_cons.mp hx with rfl | hx2
      · decide
      · exact (hgood x hx2).2.2.2 rfl
    unfold pathJoinL
    rw [if_neg (by decide), if_neg (by simp)]
    rw [pathCleanL_root_concat ('/' :: joinSlash segs) ([] :: segs) hsplit2 hnodd2]
    rw [hfilter, if_neg hne]
    exact ⟨joinSlash segs, rfl⟩
